import Mathlib

/- Shallow embedding of the wgpu-playground renderer core: the growable typed
   component stores and relation stores (src/renderer/component.rs), the scene
   batching over them (src/renderer/scene.rs, src/instance.rs), and the render
   loop's command pipeline (src/renderer/core.rs).  Entity keys (Uuid) are
   modelled as Nat; GPU work (buffer creation, write_buffer) is a side effect
   on the device and is reflected here only through the CPU-visible state it
   leaves behind (capacity, dirty flag, pool cursor), exactly as the source
   tracks it. -/

namespace WgpuSpec

/-- Association-list lookup with first-match semantics; models
`HashMap::get` for the store's `index_map` (whose keys are kept unique by
the store operations, as in the source). -/
def alLookup (m : List (Nat × Nat)) (k : Nat) : Option Nat :=
  match m with
  | [] => none
  | (k1, v) :: rest => if k1 == k then some v else alLookup rest k

/-- Remove a key, modelling `HashMap::remove` (drops every entry whose key is
`k`; with the store's unique-key discipline that is the single entry). -/
def alErase (m : List (Nat × Nat)) (k : Nat) : List (Nat × Nat) :=
  match m with
  | [] => []
  | (k1, v) :: rest => if k1 == k then alErase rest k else (k1, v) :: alErase rest k

/-- `ComponentStore<T>` from src/renderer/component.rs: dense record array,
entity-to-slot map, free-slot stack, GPU capacity and dirty flag.  The
`wgpu::Buffer` itself lives on the device; its identity changes exactly when
`grow` runs, which is what `is_dirty` records. -/
structure ComponentStore (α : Type) where
  components : List α
  capacity : Nat
  index_map : List (Nat × Nat)
  free_indices : List Nat
  is_dirty : Bool
  deriving Repr, DecidableEq

namespace ComponentStore

/-- `ComponentStore::new(capacity, ..)`: empty store, capacity clamped to at
least 1. -/
def new (α : Type) (capacity : Nat) : ComponentStore α :=
  { components := []
    capacity := max capacity 1
    index_map := []
    free_indices := []
    is_dirty := false }

/-- `ComponentStore::grow`: capacity doubles, a fresh device buffer replaces
the old one (full re-upload of `components`), and the dirty flag is set. -/
def grow (s : ComponentStore α) : ComponentStore α :=
  { s with capacity := 2 * s.capacity, is_dirty := true }

/-- `ComponentStore::add`: overwrite in place if the key exists; otherwise pop
a free slot (from the top of the `free_indices` stack, i.e. the end of the
Vec) or append, growing first when the dense array would reach capacity.
Returns the store plus the `ComponentId` index handed back to the caller. -/
def add (s : ComponentStore α) (key : Nat) (component : α) :
    ComponentStore α × Nat :=
  match alLookup s.index_map key with
  | some index => ({ s with components := s.components.set index component }, index)
  | none =>
    match s.free_indices.getLast? with
    | some free =>
      ({ s with
          components := s.components.set free component
          free_indices := s.free_indices.dropLast
          index_map := s.index_map ++ [(key, free)] }, free)
    | none =>
      let index := s.components.length
      let s1 := if s.capacity ≤ s.components.length then grow s else s
      ({ s1 with
          components := s1.components ++ [component]
          index_map := s1.index_map ++ [(key, index)] }, index)

/-- `ComponentStore::remove`: drop the key from the map and push its slot on
the free stack; the record itself is left in place. -/
def remove (s : ComponentStore α) (key : Nat) : ComponentStore α :=
  match alLookup s.index_map key with
  | some index =>
    { s with
        index_map := alErase s.index_map key
        free_indices := s.free_indices ++ [index] }
  | none => s

/-- `ComponentStore::get`. -/
def get (s : ComponentStore α) (key : Nat) : Option α :=
  (alLookup s.index_map key).bind (fun index => s.components[index]?)

/-- `ComponentStore::get_by_id`: plain bounds-checked read of the dense array
at the handle's index. -/
def get_by_id (s : ComponentStore α) (id : Nat) : Option α :=
  s.components[id]?

/-- `ComponentStore::get_index`. -/
def get_index (s : ComponentStore α) (key : Nat) : Option Nat :=
  alLookup s.index_map key

/-- `ComponentStore::set`: overwrite an existing record in place, no mapping
change. -/
def setRecord (s : ComponentStore α) (key : Nat) (component : α) :
    ComponentStore α :=
  match alLookup s.index_map key with
  | some i => { s with components := s.components.set i component }
  | none => s

end ComponentStore

/-- One control operation against a component store; the store claims range
over arbitrary finite sequences of these. -/
inductive StoreOp (α : Type) where
  | addOp (key : Nat) (component : α)
  | removeOp (key : Nat)

/-- Whether the operation adds or removes the given entity key. -/
def StoreOp.touches (e : Nat) : StoreOp α → Bool
  | .addOp k _ => k == e
  | .removeOp k => k == e

/-- A sequence of operations that never adds or removes entity `e`. -/
def avoids (e : Nat) (ops : List (StoreOp α)) : Bool :=
  ops.all (fun op => !(StoreOp.touches e op))

/-- Apply one operation (the handle returned by `add` is dropped here). -/
def applyOp (s : ComponentStore α) : StoreOp α → ComponentStore α
  | .addOp k v => (s.add k v).1
  | .removeOp k => s.remove k

/-- Apply a sequence of operations, first to last. -/
def applyOps (s : ComponentStore α) (ops : List (StoreOp α)) : ComponentStore α :=
  ops.foldl applyOp s

/-- Structural store invariant maintained by `add`/`remove`; everything the
claims need about the free-list discipline. -/
structure Inv (s : ComponentStore α) : Prop where
  keys_nodup : (s.index_map.map Prod.fst).Nodup
  map_lt : ∀ p ∈ s.index_map, p.2 < s.components.length
  free_lt : ∀ i ∈ s.free_indices, i < s.components.length
  free_nodup : s.free_indices.Nodup
  not_both : ∀ p ∈ s.index_map, p.2 ∉ s.free_indices
  slot_inj : ∀ p ∈ s.index_map, ∀ q ∈ s.index_map, p.2 = q.2 → p.1 = q.1
  cover : ∀ i, i < s.components.length →
    (∃ p ∈ s.index_map, p.2 = i) ∨ i ∈ s.free_indices

/-- The spec's store invariant, stated over the observable structure: the
index map assigns each live entity exactly one slot and is injective, and
every slot below the dense-array length is owned by exactly one live entity
or free exactly once, never both. -/
def StoreInvariant (s : ComponentStore α) : Prop :=
  (∀ e, e ∈ s.index_map.map Prod.fst →
    (s.index_map.filter (fun p => p.1 == e)).length = 1) ∧
  (∀ p ∈ s.index_map, ∀ q ∈ s.index_map, p.2 = q.2 → p.1 = q.1) ∧
  (∀ i, i < s.components.length →
    ((s.index_map.filter (fun p => p.2 == i)).length = 1 ∧
        s.free_indices.count i = 0) ∨
    ((s.index_map.filter (fun p => p.2 == i)).length = 0 ∧
        s.free_indices.count i = 1))

/-- Concrete operation sequence used to witness C4: entity 2 is added after a
prefix, then unrelated entities are added and removed around it, forcing both
free-slot reuse and capacity growth of the initial capacity-1 store. -/
def c4Pre : List (StoreOp Nat) := [.addOp 1 10]

/-- See `c4Pre`. -/
def c4Post : List (StoreOp Nat) :=
  [.addOp 3 30, .removeOp 3, .addOp 4 40, .addOp 5 50, .removeOp 1, .addOp 6 60]

/-- `RelationStore<A,B>` from src/renderer/component.rs: a dense slot-to-slot
mapping plus GPU capacity and dirty flag. -/
structure RelationStore where
  mapping : List Nat
  capacity : Nat
  is_dirty : Bool
  deriving Repr, DecidableEq

namespace RelationStore

/-- `RelationStore::new(capacity, ..)`. -/
def new (capacity : Nat) : RelationStore :=
  { mapping := [], capacity := max capacity 1, is_dirty := false }

/-- `RelationStore::grow`: capacity doubles, fresh buffer, full re-sync,
dirty flag set. -/
def grow (s : RelationStore) : RelationStore :=
  { s with capacity := 2 * s.capacity, is_dirty := true }

/-- `RelationStore::link`: `mapping.resize(index + 1, 0)` when the index is
past the end, then `mapping[index] = b`, then grow (once) if
`mapping.len() >= capacity`, then write the element to the device buffer. -/
def link (s : RelationStore) (a b : Nat) : RelationStore :=
  let s :=
    if s.mapping.length ≤ a then
      { s with mapping := s.mapping ++ List.replicate (a + 1 - s.mapping.length) 0 }
    else s
  let s := { s with mapping := s.mapping.set a b }
  if s.capacity ≤ s.mapping.length then grow s else s

/-- `RelationStore::get_mapping`. -/
def get_mapping (s : RelationStore) (index : Nat) : Option Nat :=
  s.mapping[index]?

end RelationStore

/-- `RenderCommand` (src/renderer.rs, consumed by src/renderer/core.rs), with
payloads abstracted to identifying tokens: an UpdateCamera carries its
(position, view-projection) payload as one token, a Resize carries the
surface configuration, a RenderFrame carries the acquired texture view. -/
inductive RenderCommand where
  | renderFrame (view : Nat)
  | updateCamera (camera : Nat)
  | resize (config : Nat)
  | loadAsset (asset : Nat)
  | spawnAsset (entity : Nat)
  | spawnLight (entity : Nat)
  | updateTransform (entity : Nat)
  | updateLight (entity : Nat)
  | stop
  deriving Repr, DecidableEq

/-- Observable effects of servicing commands, in order: work applied by the
render core and events sent on the result channel.  A `frameRendered` records
the surface configuration the frame was rendered against. -/
inductive Effect where
  | frameRendered (view : Nat) (config : Nat)
  | frameCompleteSent
  | resizeApplied (config : Nat)
  | cameraApplied (camera : Nat)
  | assetLoaded (asset : Nat)
  | assetSpawned (entity : Nat)
  | lightSpawned (entity : Nat)
  | resizeCompleteSent (config : Nat)
  | transformUpdated (entity : Nat)
  | lightUpdated (entity : Nat)
  | stoppedSent
  deriving Repr, DecidableEq

/-- The render-core state the command pipeline touches: the running flag, the
surface configuration currently applied to the render context, the pending
resize recorded but not yet applied, and the camera last applied. -/
structure CoreState where
  is_running : Bool
  config : Nat
  pending_resize : Option Nat
  camera : Option Nat
  deriving Repr, DecidableEq

/-- `RenderCore::handle_command`: RenderFrame renders against the *current*
config, sends FrameComplete, then takes and applies `pending_resize` if one
was recorded; Resize only records the configuration as pending and sends
ResizeComplete; Stop clears the running flag.  Scene mutations (LoadAsset,
Spawn*, UpdateTransform, UpdateLight) are recorded as effects. -/
def handle_command (s : CoreState) : RenderCommand → CoreState × List Effect
  | .renderFrame v =>
    match s.pending_resize with
    | some cfg =>
      ({ s with config := cfg, pending_resize := none },
        [.frameRendered v s.config, .frameCompleteSent, .resizeApplied cfg])
    | none => (s, [.frameRendered v s.config, .frameCompleteSent])
  | .updateCamera c => ({ s with camera := some c }, [.cameraApplied c])
  | .loadAsset a => (s, [.assetLoaded a])
  | .spawnAsset e => (s, [.assetSpawned e])
  | .spawnLight e => (s, [.lightSpawned e])
  | .resize cfg => ({ s with pending_resize := some cfg }, [.resizeCompleteSent cfg])
  | .updateTransform e => (s, [.transformUpdated e])
  | .updateLight e => (s, [.lightUpdated e])
  | .stop => ({ s with is_running := false }, [])

/-- The `Inbox` struct local to `RenderCore::run`: one latest-wins slot per
coalesced command kind. -/
structure Inbox where
  camera : Option RenderCommand
  resize : Option RenderCommand
  frame : Option RenderCommand
  deriving Repr, DecidableEq

/-- `Inbox::default()`. -/
def Inbox.empty : Inbox := ⟨none, none, none⟩

/-- `Inbox::receive`: coalesced kinds are stored latest-wins and `None` is
returned; any other command is handed straight back to the caller. -/
def Inbox.receive (i : Inbox) : RenderCommand → Inbox × Option RenderCommand
  | .updateCamera c => ({ i with camera := some (.updateCamera c) }, none)
  | .resize cfg => ({ i with resize := some (.resize cfg) }, none)
  | .renderFrame v => ({ i with frame := some (.renderFrame v) }, none)
  | other => (i, some other)

/-- `Inbox::take_ready`: the occupied coalesced slots, in the fixed priority
order resize, camera, frame (the slots are emptied; the cycle model below
starts each cycle from `Inbox.empty`, which is equivalent because
`take_ready` always drains all three slots). -/
def Inbox.take_ready (i : Inbox) : List RenderCommand :=
  [i.resize, i.camera, i.frame].filterMap id

/-- Phase 1 of a drain cycle of `RenderCore::run`: feed each received command
through the inbox; ordered commands are handled on the spot, coalesced ones
are stored latest-wins. -/
def process_incoming (i : Inbox) (s : CoreState) :
    List RenderCommand → Inbox × CoreState × List Effect
  | [] => (i, s, [])
  | c :: cs =>
    let ri := i.receive c
    let hs :=
      match ri.2 with
      | some c2 => handle_command s c2
      | none => (s, [])
    let rest := process_incoming ri.1 hs.1 cs
    (rest.1, rest.2.1, hs.2 ++ rest.2.2)

/-- Handle a list of commands in order, concatenating their effects. -/
def handle_all (s : CoreState) : List RenderCommand → CoreState × List Effect
  | [] => (s, [])
  | c :: cs =>
    let hs := handle_command s c
    let rest := handle_all hs.1 cs
    (rest.1, hs.2 ++ rest.2)

/-- One drain cycle of `RenderCore::run`, servicing the batch of commands
queued on the channel when the cycle starts: the blocking `recv` plus the
`try_recv` drain pass every queued command through the inbox, then the
coalesced slots are flushed via `take_ready`. -/
def drain_cycle (s : CoreState) (batch : List RenderCommand) :
    CoreState × List Effect :=
  let r := process_incoming Inbox.empty s batch
  let f := handle_all r.2.1 r.1.take_ready
  (f.1, r.2.2 ++ f.2)

/-- The UpdateCamera payload of a command. -/
def camValue : RenderCommand → Option Nat
  | .updateCamera c => some c
  | _ => none

/-- The Resize payload of a command. -/
def resizeValue : RenderCommand → Option Nat
  | .resize cfg => some cfg
  | _ => none

/-- The RenderFrame payload of a command. -/
def frameValue : RenderCommand → Option Nat
  | .renderFrame v => some v
  | _ => none

/-- A spawn payload, keeping the SpawnAsset/SpawnLight distinction. -/
inductive SpawnTag where
  | asset (entity : Nat)
  | light (entity : Nat)
  deriving Repr, DecidableEq

/-- The spawn payload of a command. -/
def spawnValue : RenderCommand → Option SpawnTag
  | .spawnAsset e => some (.asset e)
  | .spawnLight e => some (.light e)
  | _ => none

/-- The camera payload of an applied-camera effect. -/
def effCamValue : Effect → Option Nat
  | .cameraApplied c => some c
  | _ => none

/-- The spawn payload of an applied-spawn effect. -/
def effSpawnValue : Effect → Option SpawnTag
  | .assetSpawned e => some (.asset e)
  | .lightSpawned e => some (.light e)
  | _ => none

/-- Whether a burst consists only of spawn and camera-update commands. -/
def spawnOrCamera (q : List RenderCommand) : Bool :=
  q.all (fun c => (spawnValue c).isSome || (camValue c).isSome)

/-- The command channel as the render loop sees it: the commands currently
buffered, and whether any sender is still alive.  `recv()` on a nonempty
queue returns a command; on an empty queue it returns `Err(RecvError)` when
every sender has been dropped, and blocks otherwise. -/
structure Channel where
  queue : List RenderCommand
  connected : Bool
  deriving Repr, DecidableEq

/-- Result of running the render loop for a bounded number of iterations. -/
inductive RunResult where
  | finished (s : CoreState) (effects : List Effect)
  | blocked (s : CoreState) (effects : List Effect)
  | outOfFuel (s : CoreState) (effects : List Effect)
  deriving Repr, DecidableEq

/-- `RenderCore::run`, fuel-bounded: while `is_running`, block for one
command, drain the rest non-blockingly, flush the inbox.  The source wraps
the blocking `recv()` in `if let Ok(..)`, so a disconnected channel's
`RecvError` is discarded and the loop simply iterates again.  Once
`is_running` is false the loop exits, `Stopped` is sent, and `run` returns
(`finished`). -/
def run_loop : Nat → Channel → CoreState → List Effect → RunResult
  | 0, _, s, effects => .outOfFuel s effects
  | fuel + 1, ch, s, effects =>
    if s.is_running then
      match ch.queue with
      | [] =>
        if ch.connected then .blocked s effects
        else run_loop fuel ch s effects
      | c :: cs =>
        let r := drain_cycle s (c :: cs)
        run_loop fuel { ch with queue := [] } r.1 (effects ++ r.2)
    else .finished s (effects ++ [.stoppedSent])

/-- A fresh render core as `RenderCore::new` leaves it: running, with some
initial surface configuration and no pending state. -/
def initCore : CoreState :=
  { is_running := true, config := 0, pending_resize := none, camera := none }

/-- C8 scenario: every sender dropped, nothing left in the queue. -/
def disconnectedChannel : Channel := { queue := [], connected := false }

/-- C1 witness burst: three camera updates around a spawn. -/
def c1Batch : List RenderCommand :=
  [.updateCamera 1, .spawnAsset 5, .updateCamera 2, .updateCamera 3]

/-- C2 witness burst: spawns interleaved with camera updates. -/
def c2Batch : List RenderCommand :=
  [.spawnAsset 1, .updateCamera 9, .spawnLight 2, .updateCamera 8, .spawnAsset 3]

/-- C3 scenario: a core whose surface configuration is 3 services a Resize
to configuration 7 and a RenderFrame in the same drain cycle. -/
def c3Core : CoreState :=
  { is_running := true, config := 3, pending_resize := none, camera := none }

/-- See `c3Core`. -/
def c3Batch : List RenderCommand := [.resize 7, .renderFrame 0]

/-- `HostComponentStore<T>` from src/renderer/component.rs: the CPU-only
variant of the store (no GPU buffer, capacity or dirty flag). -/
structure HostComponentStore (α : Type) where
  components : List α
  index_map : List (Nat × Nat)
  free_indices : List Nat
  deriving Repr, DecidableEq

namespace HostComponentStore

/-- `HostComponentStore::new`. -/
def new (α : Type) : HostComponentStore α :=
  { components := [], index_map := [], free_indices := [] }

/-- `HostComponentStore::add`: same slot policy as the GPU store, minus the
device writes. -/
def add (s : HostComponentStore α) (key : Nat) (component : α) :
    HostComponentStore α × Nat :=
  match alLookup s.index_map key with
  | some index => ({ s with components := s.components.set index component }, index)
  | none =>
    match s.free_indices.getLast? with
    | some free =>
      ({ s with
          components := s.components.set free component
          free_indices := s.free_indices.dropLast
          index_map := s.index_map ++ [(key, free)] }, free)
    | none =>
      ({ s with
          components := s.components ++ [component]
          index_map := s.index_map ++ [(key, s.components.length)] },
        s.components.length)

/-- `HostComponentStore::remove`. -/
def remove (s : HostComponentStore α) (key : Nat) : HostComponentStore α :=
  match alLookup s.index_map key with
  | some index =>
    { s with
        index_map := alErase s.index_map key
        free_indices := s.free_indices ++ [index] }
  | none => s

/-- `HostComponentStore::get`. -/
def get (s : HostComponentStore α) (key : Nat) : Option α :=
  (alLookup s.index_map key).bind (fun index => s.components[index]?)

/-- `HostComponentStore::iter_with_index`: iterate the index map, yielding
(key, slot, record).  The source iterates a `HashMap` in unspecified order
and indexes the dense array directly; the model iterates the association
list in insertion order (the properties proved below do not depend on the
order) and reads through the bounds-checked lookup, which always succeeds on
states reachable through the store operations. -/
def iter_with_index (s : HostComponentStore α) : List (Nat × Nat × α) :=
  s.index_map.filterMap (fun p => (s.components[p.2]?).map (fun v => (p.1, p.2, v)))

end HostComponentStore

/-- `ComponentStore::iter_with_index`, same shape as the host variant. -/
def ComponentStore.iter_with_index (s : ComponentStore α) : List (Nat × Nat × α) :=
  s.index_map.filterMap (fun p => (s.components[p.2]?).map (fun v => (p.1, p.2, v)))

/-- `LightUniform` (src/renderer/light.rs), reduced to the one field the
batch builder reads: `kind` (0 directional, 1 point, 2 spot). -/
structure LightUniform where
  kind : Nat
  deriving Repr, DecidableEq

/-- The two `Renderable` variants of src/renderer/scene.rs (the primitive /
geometry handle payloads do not enter the batch-counting claims). -/
inductive RenderableKind where
  | mesh
  | pointcloud
  deriving Repr, DecidableEq

/-- The pipeline identifiers of the batch builder: `Renderable::as_str`
returns "mesh" / "pointcloud", and the debug-light batches use "light". -/
inductive PipelineId where
  | light
  | mesh
  | pointcloud
  deriving Repr, DecidableEq

/-- Sort rank of a pipeline id: the alphabetical order of the corresponding
Rust string literals, "light" < "mesh" < "pointcloud". -/
def PipelineId.rank : PipelineId → Nat
  | .light => 0
  | .mesh => 1
  | .pointcloud => 2

/-- `Renderable::as_str`, as a pipeline id. -/
def RenderableKind.pipeline : RenderableKind → PipelineId
  | .mesh => .mesh
  | .pointcloud => .pointcloud

/-- `BatchKey` (pipeline id, renderable handle). -/
structure BatchKey where
  pipeline_id : PipelineId
  render_id : Nat
  deriving Repr, DecidableEq

/-- Per-draw instance record (renderer instance module; layout documented in
the spec as two 32-bit indices): the transform slot and the normal slot. -/
structure Instance where
  transform_index : Nat
  normal_index : Nat
  deriving Repr, DecidableEq

/-- `RenderBatch`: a contiguous instance-pool range for one (pipeline,
renderable) key. -/
structure RenderBatch where
  key : BatchKey
  instance_offset : Nat
  instance_count : Nat
  deriving Repr, DecidableEq

/-- `InstancePool` (src/instance.rs): a ring-buffer device array; only the
capacity and write cursor are CPU-visible. -/
structure InstancePool where
  capacity : Nat
  cursor : Nat
  deriving Repr, DecidableEq

/-- `InstancePool::new(capacity, ..)`. -/
def InstancePool.new (capacity : Nat) : InstancePool :=
  { capacity := max capacity 1, cursor := 0 }

/-- `InstancePool::upload`: if the next write would exceed capacity the
cursor wraps to 0; the records are written at the cursor, the start offset
is returned and the cursor advances by the record count. -/
def InstancePool.upload (p : InstancePool) (size : Nat) : InstancePool × Nat :=
  let p := if p.capacity < p.cursor + size then { p with cursor := 0 } else p
  ({ p with cursor := p.cursor + size }, p.cursor)

/-- `InstancePool::reset` (never called by the scene graph). -/
def InstancePool.reset (p : InstancePool) : InstancePool :=
  { p with cursor := 0 }

/-- Insert one (key, instance) into grouped batches, modelling
`batches.entry(key).or_default().push(instance)`.  Groups are kept in first
appearance order; the `HashMap` iteration order of the source is
unspecified, and the batch counts and total cursor advance proved below do
not depend on it. -/
def groupInsert (acc : List (BatchKey × List Instance)) (key : BatchKey)
    (inst : Instance) : List (BatchKey × List Instance) :=
  match acc with
  | [] => [(key, [inst])]
  | (k, is) :: rest =>
    if k = key then (k, is ++ [inst]) :: rest
    else (k, is) :: groupInsert rest key inst

/-- Group a keyed instance list, preserving per-key insertion order. -/
def groupByKey (l : List (BatchKey × Instance)) : List (BatchKey × List Instance) :=
  l.foldl (fun acc p => groupInsert acc p.1 p.2) []

/-- Batch order used by `sort_by_key(|b| (b.key.pipeline_id, b.key.render_id))`. -/
def RenderBatch.keyLe (a b : RenderBatch) : Bool :=
  decide (a.key.pipeline_id.rank < b.key.pipeline_id.rank) ||
    (decide (a.key.pipeline_id.rank = b.key.pipeline_id.rank) &&
      decide (a.key.render_id ≤ b.key.render_id))

/-- Insertion step of the batch sort. -/
def insertBatch (b : RenderBatch) : List RenderBatch → List RenderBatch
  | [] => [b]
  | x :: xs => if b.keyLe x then b :: x :: xs else x :: insertBatch b xs

/-- Sort batches by (pipeline id, renderable handle). -/
def sortBatches : List RenderBatch → List RenderBatch
  | [] => []
  | x :: xs => insertBatch x (sortBatches xs)

/-- The slice of `SceneGraph` (src/renderer/scene.rs) the batching claims
exercise: the node and renderable host stores, the GPU stores for
transforms / normals / lights (record payloads elide to `Unit` where the
batch builder never reads them), the three relation stores, the instance
pool and the built batches.  `debug_id` is the unit-cube renderable created
by `SceneGraph::new` for point-light debug batches. -/
structure SceneGraph where
  nodes : HostComponentStore Nat
  renderables : HostComponentStore RenderableKind
  transforms : ComponentStore Unit
  normals : ComponentStore Unit
  lights : ComponentStore LightUniform
  node_transform_index : RelationStore
  node_normal_index : RelationStore
  lights_transform_index : RelationStore
  instance_pool : InstancePool
  render_batches : List RenderBatch
  debug_id : Nat
  deriving Repr, DecidableEq

/-- `SceneGraph::new`: stores of capacity 64, an instance pool of capacity
2048, and the debug unit-cube renderable registered under `debug_id`
(token 0 here; the source draws a fresh Uuid). -/
def SceneGraph.init : SceneGraph :=
  { nodes := HostComponentStore.new Nat
    renderables := ((HostComponentStore.new RenderableKind).add 0 .mesh).1
    transforms := ComponentStore.new Unit 64
    normals := ComponentStore.new Unit 64
    lights := ComponentStore.new LightUniform 64
    node_transform_index := RelationStore.new 64
    node_normal_index := RelationStore.new 64
    lights_transform_index := RelationStore.new 64
    instance_pool := InstancePool.new 2048
    render_batches := []
    debug_id := 0 }

/-- `SceneGraph::add_renderable` (via `add_mesh` / `add_pointcloud`):
register a renderable under a fresh id. -/
def SceneGraph.add_renderable (g : SceneGraph) (id : Nat) (r : RenderableKind) :
    SceneGraph :=
  { g with renderables := (g.renderables.add id r).1 }

/-- The node loop of `SceneGraph::build_render_batches`: every live node
whose transform and normal relations resolve and whose renderable exists is
keyed by (pipeline of the renderable, renderable handle); unresolvable nodes
are skipped. -/
def SceneGraph.nodeInstances (g : SceneGraph) : List (BatchKey × Instance) :=
  g.nodes.iter_with_index.filterMap (fun t =>
    match g.node_transform_index.get_mapping t.2.1,
        g.node_normal_index.get_mapping t.2.1 with
    | some ti, some ni =>
      match g.renderables.get t.2.2 with
      | some rk =>
        some (⟨rk.pipeline, t.2.2⟩, ⟨ti, ni⟩)
      | none => none
    | _, _ => none)

/-- The debug-light loop of `SceneGraph::build_render_batches`: one
debug-cube instance per point light (kind 1) whose transform resolves. -/
def SceneGraph.lightInstances (g : SceneGraph) : List (BatchKey × Instance) :=
  (g.lights.iter_with_index).filterMap (fun t =>
    if t.2.2.kind ≠ 1 then none
    else
      match g.lights_transform_index.get_mapping t.2.1 with
      | some ti =>
        match g.renderables.get g.debug_id with
        | some _ => some (⟨.light, g.debug_id⟩, ⟨ti, 0⟩)
        | none => none
      | none => none)

/-- Upload each group contiguously into the instance pool and record one
Render Batch per group. -/
def uploadGroups (pool : InstancePool)
    (grouped : List (BatchKey × List Instance)) :
    InstancePool × List RenderBatch :=
  grouped.foldl
    (fun (acc : InstancePool × List RenderBatch) kv =>
      let up := acc.1.upload kv.2.length
      (up.1, acc.2 ++ [⟨kv.1, up.2, kv.2.length⟩]))
    (pool, [])

/-- `SceneGraph::build_render_batches`: group every resolvable live node by
(pipeline, renderable) key, add one debug batch instance per point light,
upload each group contiguously into the instance pool, and sort the batches
by key. -/
def SceneGraph.build_render_batches (g : SceneGraph) : SceneGraph :=
  let grouped := groupByKey (g.nodeInstances ++ g.lightInstances)
  let uploaded := uploadGroups g.instance_pool grouped
  { g with
      instance_pool := uploaded.1
      render_batches := sortBatches uploaded.2 }

/-- `SceneGraph::add_node`: create the transform record, register the node,
link node→transform, create the normal record, link node→normal, then
rebuild the render batches. -/
def SceneGraph.add_node (g : SceneGraph) (entity handle : Nat) : SceneGraph :=
  let tr := g.transforms.add entity ()
  let nr := g.nodes.add entity handle
  let g1 :=
    { g with
        transforms := tr.1
        nodes := nr.1
        node_transform_index := g.node_transform_index.link nr.2 tr.2 }
  let nm := g1.normals.add entity ()
  let g2 :=
    { g1 with
        normals := nm.1
        node_normal_index := g1.node_normal_index.link nr.2 nm.2 }
  g2.build_render_batches

/-- Spawn a mesh node per entity, all sharing one renderable handle. -/
def spawnMany (g : SceneGraph) (handle : Nat) (entities : List Nat) : SceneGraph :=
  entities.foldl (fun g e => g.add_node e handle) g

/-- Remove the given entities from the node store (the repository exposes
the node store directly and has no dedicated despawn path; removal does not
itself trigger a rebuild). -/
def removeNodes (g : SceneGraph) (entities : List Nat) : SceneGraph :=
  entities.foldl (fun g e => { g with nodes := g.nodes.remove e }) g

/-- The entities 1, 2, ..., k. -/
def entityList (k : Nat) : List Nat := (List.range k).map (fun j => j + 1)

/-- C9 scenario, first phase: 100 mesh nodes (entities 1..100) spawned on
one renderable handle (id 1), each spawn rebuilding the batches. -/
def c9Spawned : SceneGraph :=
  spawnMany (SceneGraph.init.add_renderable 1 .mesh) 1 (entityList 100)

/-- C9 scenario, second phase: entities 1..50 removed, then one rebuild. -/
def c9Removed : SceneGraph :=
  (removeNodes c9Spawned (entityList 50)).build_render_batches

/-- The index map of a store that received k fresh sequential adds for
entities 1..k: entity j+1 sits in slot j. -/
def rangeKeyMap (k : Nat) : List (Nat × Nat) :=
  (List.range k).map (fun j => (j + 1, j))

/-- The instance pool (and last returned offset) after the k uploads of
sizes 1, 2, ..., k performed by the k batch rebuilds of the spawn phase. -/
def poolAt : Nat → InstancePool × Nat
  | 0 => (InstancePool.new 2048, 0)
  | k + 1 => (poolAt k).1.upload (k + 1)

/-- Closed form of the C9 scene stores after the first k spawns, with the
instance pool and batch list left as parameters: every list is in
constructor form.  Capacities and dirty flags record the single doubling the
capacity-64 stores (adds reaching length 64) and the relation stores (links
reaching length 64) undergo on the way to 100. -/
def preSceneAt (k : Nat) (pool : InstancePool) (batches : List RenderBatch) :
    SceneGraph :=
  { nodes := ⟨List.replicate k 1, rangeKeyMap k, []⟩
    renderables := ⟨[.mesh, .mesh], [(0, 0), (1, 1)], []⟩
    transforms :=
      ⟨List.replicate k (), if k ≤ 64 then 64 else 128, rangeKeyMap k, [],
        decide (65 ≤ k)⟩
    normals :=
      ⟨List.replicate k (), if k ≤ 64 then 64 else 128, rangeKeyMap k, [],
        decide (65 ≤ k)⟩
    lights := ⟨[], 64, [], [], false⟩
    node_transform_index :=
      ⟨List.range k, if k ≤ 63 then 64 else 128, decide (64 ≤ k)⟩
    node_normal_index :=
      ⟨List.range k, if k ≤ 63 then 64 else 128, decide (64 ≤ k)⟩
    lights_transform_index := ⟨[], 64, false⟩
    instance_pool := pool
    render_batches := batches
    debug_id := 0 }

/-- Closed form of the full C9 scene state after the first k spawns. -/
def preScene (k : Nat) : SceneGraph :=
  preSceneAt k (poolAt k).1
    (if k = 0 then [] else [⟨⟨.mesh, 1⟩, (poolAt k).2, k⟩])

section RelationStoreLemmas

/-- After `link`, the mapping is the old mapping zero-extended to cover index
`a` and then overwritten at `a`. -/
theorem link_mapping (s : RelationStore) (a b : Nat) :
    (s.link a b).mapping =
      (if s.mapping.length ≤ a then
        s.mapping ++ List.replicate (a + 1 - s.mapping.length) 0
      else s.mapping).set a b := by
  unfold RelationStore.link
  dsimp only
  split <;> split <;> simp [RelationStore.grow]

/-- `link` leaves the mapping long enough to contain index `a`. -/
theorem link_length_ge (s : RelationStore) (a b : Nat) :
    a < (s.link a b).mapping.length := by
  rw [link_mapping]
  split <;> rename_i h
  · simp
    omega
  · simp
    omega

end RelationStoreLemmas

section AssocListLemmas

/-- Looking up an erased key fails. -/
theorem alLookup_alErase_self (m : List (Nat × Nat)) (k : Nat) :
    alLookup (alErase m k) k = none := by
  induction m with
  | nil => rfl
  | cons p rest ih =>
    obtain ⟨k1, v⟩ := p
    by_cases h : k1 = k
    · simp [alErase, h, ih]
    · simp [alErase, alLookup, h, ih]

/-- Erasure leaves other keys untouched. -/
theorem alLookup_alErase_ne (m : List (Nat × Nat)) (k k1 : Nat) (h : k1 ≠ k) :
    alLookup (alErase m k) k1 = alLookup m k1 := by
  induction m with
  | nil => rfl
  | cons p rest ih =>
    obtain ⟨k2, v⟩ := p
    by_cases h2 : k2 = k
    · subst h2
      simp [alErase, alLookup, Ne.symm h, ih]
    · by_cases h3 : k2 = k1 <;> simp [alErase, alLookup, h, h2, h3, ih]

/-- Lookup distributes over append: the left list wins when it knows the key. -/
theorem alLookup_append (m1 m2 : List (Nat × Nat)) (k : Nat) :
    alLookup (m1 ++ m2) k =
      match alLookup m1 k with
      | some v => some v
      | none => alLookup m2 k := by
  induction m1 with
  | nil => simp [alLookup]
  | cons p rest ih =>
    obtain ⟨k1, v⟩ := p
    by_cases h : k1 = k <;> simp [alLookup, h, ih]

end AssocListLemmas

section StoreStepLemmas

/-- A successful lookup exhibits a pair of the list. -/
theorem alLookup_eq_some_mem {m : List (Nat × Nat)} {k i : Nat}
    (h : alLookup m k = some i) : (k, i) ∈ m := by
  induction m with
  | nil => simp [alLookup] at h
  | cons p rest ih =>
    obtain ⟨k1, v⟩ := p
    by_cases hk : k1 = k
    · subst hk
      simp [alLookup] at h
      simp [h]
    · simp [alLookup, hk] at h
      simp [ih h]

/-- A failed lookup means no pair carries the key. -/
theorem alLookup_eq_none_key {m : List (Nat × Nat)} {k : Nat} {p : Nat × Nat}
    (h : alLookup m k = none) (hp : p ∈ m) : p.1 ≠ k := by
  induction m with
  | nil => simp at hp
  | cons q rest ih =>
    obtain ⟨k1, v⟩ := q
    by_cases hk : k1 = k
    · simp [alLookup, hk] at h
    · rcases List.mem_cons.mp hp with rfl | hpr
      · exact hk
      · exact ih (by simpa [alLookup, hk] using h) hpr

/-- Peeling the last element off a nonempty list (`Vec::pop`). -/
theorem getLast?_decomp {β : Type} {l : List β} {x : β} (h : l.getLast? = some x) :
    l.dropLast ++ [x] = l := by
  have hne : l ≠ [] := by rintro rfl; simp at h
  have h2 := List.dropLast_append_getLast hne
  rw [List.getLast?_eq_getLast l hne, Option.some_inj] at h
  rw [h] at h2
  exact h2

/-- `alErase` is a sublist of the original association list. -/
theorem alErase_sublist (m : List (Nat × Nat)) (k : Nat) :
    (alErase m k).Sublist m := by
  induction m with
  | nil => simp [alErase]
  | cons p rest ih =>
    obtain ⟨k1, v⟩ := p
    by_cases hk : k1 = k
    · rw [show alErase ((k1, v) :: rest) k = alErase rest k from by simp [alErase, hk]]
      exact List.Sublist.cons _ ih
    · rw [show alErase ((k1, v) :: rest) k = (k1, v) :: alErase rest k from by
        simp [alErase, hk]]
      exact List.Sublist.cons₂ _ ih

/-- Membership in `alErase`. -/
theorem mem_alErase {m : List (Nat × Nat)} {k : Nat} {p : Nat × Nat} :
    p ∈ alErase m k ↔ p ∈ m ∧ p.1 ≠ k := by
  induction m with
  | nil => simp [alErase]
  | cons q rest ih =>
    obtain ⟨k1, v⟩ := q
    by_cases hk : k1 = k
    · have he : alErase ((k1, v) :: rest) k = alErase rest k := by
        simp [alErase, hk]
      rw [he, ih, List.mem_cons]
      constructor
      · rintro ⟨hp, hne⟩
        exact ⟨Or.inr hp, hne⟩
      · rintro ⟨hp | hp, hne⟩
        · exact absurd (by simp [hp, hk]) hne
        · exact ⟨hp, hne⟩
    · have he : alErase ((k1, v) :: rest) k = (k1, v) :: alErase rest k := by
        simp [alErase, hk]
      rw [he, List.mem_cons, ih, List.mem_cons]
      constructor
      · rintro (hp | ⟨hp, hne⟩)
        · exact ⟨Or.inl hp, by simp [hp, hk]⟩
        · exact ⟨Or.inr hp, hne⟩
      · rintro ⟨hp | hp, hne⟩
        · exact Or.inl hp
        · exact Or.inr ⟨hp, hne⟩

/-- A nodup list whose members all equal `x`, and which contains `x`, is
exactly `[x]`. -/
theorem nodup_mem_all_eq {β : Type} {l : List β} {x : β} (hn : l.Nodup)
    (hx : x ∈ l) (hall : ∀ y ∈ l, y = x) : l = [x] := by
  cases l with
  | nil => simp at hx
  | cons a t =>
    have ha : a = x := hall a (by simp)
    subst ha
    have ht : t = [] := by
      cases t with
      | nil => rfl
      | cons b t2 =>
        have hb : b = a := hall b (by simp)
        subst hb
        simp at hn
    simp [ht]

/-- `add` when the key already exists: overwrite in place. -/
theorem add_eq_overwrite {s : ComponentStore α} {k i : Nat} (v : α)
    (h : alLookup s.index_map k = some i) :
    s.add k v = ({ s with components := s.components.set i v }, i) := by
  unfold ComponentStore.add
  rw [h]

/-- `add` of a fresh key with a nonempty free list: pop the top slot. -/
theorem add_eq_reuse {s : ComponentStore α} {k free : Nat} (v : α)
    (h : alLookup s.index_map k = none)
    (hf : s.free_indices.getLast? = some free) :
    s.add k v =
      ({ s with
          components := s.components.set free v
          free_indices := s.free_indices.dropLast
          index_map := s.index_map ++ [(k, free)] }, free) := by
  unfold ComponentStore.add
  rw [h, hf]

/-- `add` of a fresh key with an empty free list: append, growing the GPU
buffer first if the dense array would reach capacity. -/
theorem add_eq_append {s : ComponentStore α} {k : Nat} (v : α)
    (h : alLookup s.index_map k = none)
    (hf : s.free_indices.getLast? = none) :
    s.add k v =
      ({ s with
          components := s.components ++ [v]
          index_map := s.index_map ++ [(k, s.components.length)]
          capacity :=
            if s.capacity ≤ s.components.length then 2 * s.capacity else s.capacity
          is_dirty :=
            if s.capacity ≤ s.components.length then true else s.is_dirty },
        s.components.length) := by
  unfold ComponentStore.add ComponentStore.grow
  rw [h, hf]
  dsimp only
  split <;> rfl

/-- `remove` of a live key. -/
theorem remove_eq_some {s : ComponentStore α} {k i : Nat}
    (h : alLookup s.index_map k = some i) :
    s.remove k =
      { s with
          index_map := alErase s.index_map k
          free_indices := s.free_indices ++ [i] } := by
  unfold ComponentStore.remove
  rw [h]

/-- `remove` of an absent key is a no-op. -/
theorem remove_eq_none {s : ComponentStore α} {k : Nat}
    (h : alLookup s.index_map k = none) : s.remove k = s := by
  unfold ComponentStore.remove
  rw [h]

end StoreStepLemmas

section InvariantLemmas

/-- The freshly constructed store satisfies the structural invariant. -/
theorem inv_new (α : Type) (capacity : Nat) : Inv (ComponentStore.new α capacity) := by
  refine ⟨?_, ?_, ?_, ?_, ?_, ?_, ?_⟩ <;> simp [ComponentStore.new]

/-- `add` preserves the structural invariant, along all three paths
(overwrite, free-slot reuse, append-with-growth). -/
theorem inv_add {α : Type} {s : ComponentStore α} (hI : Inv s) (k : Nat) (v : α) :
    Inv (s.add k v).1 := by
  cases hlk : alLookup s.index_map k with
  | some i =>
    rw [add_eq_overwrite v hlk]
    exact
      { keys_nodup := hI.keys_nodup
        map_lt := by simpa using hI.map_lt
        free_lt := by simpa using hI.free_lt
        free_nodup := hI.free_nodup
        not_both := hI.not_both
        slot_inj := hI.slot_inj
        cover := by simpa using hI.cover }
  | none =>
    have hknotin : ∀ p ∈ s.index_map, p.1 ≠ k := fun p hp => alLookup_eq_none_key hlk hp
    cases hfr : s.free_indices.getLast? with
    | some free =>
      rw [add_eq_reuse v hlk hfr]
      have hdec : s.free_indices.dropLast ++ [free] = s.free_indices :=
        getLast?_decomp hfr
      have hfree_mem : free ∈ s.free_indices := by
        rw [← hdec]; simp
      have hfree_lt : free < s.components.length := hI.free_lt free hfree_mem
      have hnd : (s.free_indices.dropLast ++ [free]).Nodup := by
        rw [hdec]; exact hI.free_nodup
      have hfree_not : free ∉ s.free_indices.dropLast := by
        rcases List.nodup_append.mp hnd with ⟨h1, h2, hdisj⟩
        intro hmem
        exact hdisj hmem (by simp)
      refine ⟨?_, ?_, ?_, ?_, ?_, ?_, ?_⟩
      · rw [List.map_append, List.nodup_append]
        refine ⟨hI.keys_nodup, by simp, ?_⟩
        intro a ha hb
        simp at hb
        subst hb
        obtain ⟨p, hp, hpa⟩ := List.mem_map.mp ha
        exact hknotin p hp hpa
      · intro p hp
        rw [List.length_set]
        rcases List.mem_append.mp hp with hp | hp
        · exact hI.map_lt p hp
        · simp at hp
          subst hp
          exact hfree_lt
      · intro j hj
        rw [List.length_set]
        exact hI.free_lt j ((List.dropLast_sublist _).subset hj)
      · exact List.Nodup.sublist (List.dropLast_sublist _) hI.free_nodup
      · intro p hp hmem
        rcases List.mem_append.mp hp with hp | hp
        · exact hI.not_both p hp ((List.dropLast_sublist _).subset hmem)
        · simp at hp
          subst hp
          exact hfree_not hmem
      · intro p hp q hq heq
        rcases List.mem_append.mp hp with hp | hp <;>
          rcases List.mem_append.mp hq with hq | hq
        · exact hI.slot_inj p hp q hq heq
        · simp at hq
          subst hq
          exact absurd (show p.2 ∈ s.free_indices from (show p.2 = free from heq) ▸ hfree_mem)
            (hI.not_both p hp)
        · simp at hp
          subst hp
          exact absurd (show q.2 ∈ s.free_indices from (show q.2 = free from heq.symm) ▸ hfree_mem)
            (hI.not_both q hq)
        · simp at hp hq
          subst hp
          subst hq
          rfl
      · intro i0 hi0
        rw [List.length_set] at hi0
        rcases hI.cover i0 hi0 with ⟨p, hp, hpi⟩ | hfree2
        · exact Or.inl ⟨p, List.mem_append.mpr (Or.inl hp), hpi⟩
        · rw [← hdec] at hfree2
          rcases List.mem_append.mp hfree2 with h | h
          · exact Or.inr h
          · simp at h
            subst h
            exact Or.inl ⟨(k, i0), by simp, rfl⟩
    | none =>
      rw [add_eq_append v hlk hfr]
      have hfr2 : s.free_indices = [] := by
        rwa [List.getLast?_eq_none_iff] at hfr
      refine ⟨?_, ?_, ?_, ?_, ?_, ?_, ?_⟩
      · rw [List.map_append, List.nodup_append]
        refine ⟨hI.keys_nodup, by simp, ?_⟩
        intro a ha hb
        simp at hb
        subst hb
        obtain ⟨p, hp, hpa⟩ := List.mem_map.mp ha
        exact hknotin p hp hpa
      · intro p hp
        rw [List.length_append]
        rcases List.mem_append.mp hp with hp | hp
        · have := hI.map_lt p hp
          simp
          omega
        · simp at hp
          subst hp
          simp
      · intro j hj
        rw [hfr2] at hj
        simp at hj
      · exact hI.free_nodup
      · intro p hp hmem
        rw [hfr2] at hmem
        simp at hmem
      · intro p hp q hq heq
        rcases List.mem_append.mp hp with hp | hp <;>
          rcases List.mem_append.mp hq with hq | hq
        · exact hI.slot_inj p hp q hq heq
        · simp at hq
          subst hq
          have := hI.map_lt p hp
          have h2 : p.2 = s.components.length := heq
          omega
        · simp at hp
          subst hp
          have := hI.map_lt q hq
          have h2 : q.2 = s.components.length := heq.symm
          omega
        · simp at hp hq
          subst hp
          subst hq
          rfl
      · intro i0 hi0
        rw [List.length_append] at hi0
        simp at hi0
        by_cases hlen : i0 < s.components.length
        · rcases hI.cover i0 hlen with ⟨p, hp, hpi⟩ | hfree2
          · exact Or.inl ⟨p, List.mem_append.mpr (Or.inl hp), hpi⟩
          · rw [hfr2] at hfree2
            simp at hfree2
        · have hix : i0 = s.components.length := by omega
          subst hix
          exact Or.inl ⟨(k, s.components.length), by simp, rfl⟩

/-- `remove` preserves the structural invariant. -/
theorem inv_remove {α : Type} {s : ComponentStore α} (hI : Inv s) (k : Nat) :
    Inv (s.remove k) := by
  cases hlk : alLookup s.index_map k with
  | none =>
    rw [remove_eq_none hlk]
    exact hI
  | some i =>
    rw [remove_eq_some hlk]
    have hki : (k, i) ∈ s.index_map := alLookup_eq_some_mem hlk
    have hilt : i < s.components.length := hI.map_lt _ hki
    have hinot : i ∉ s.free_indices := hI.not_both _ hki
    have hfst : ∀ x ∈ s.index_map, ∀ y ∈ s.index_map, x.1 = y.1 → x = y :=
      fun x hx y hy hxy => List.inj_on_of_nodup_map hI.keys_nodup hx hy hxy
    refine ⟨?_, ?_, ?_, ?_, ?_, ?_, ?_⟩
    · exact List.Nodup.sublist ((alErase_sublist s.index_map k).map Prod.fst) hI.keys_nodup
    · intro p hp
      exact hI.map_lt p (mem_alErase.mp hp).1
    · intro j hj
      rcases List.mem_append.mp hj with hj | hj
      · exact hI.free_lt j hj
      · simp at hj
        subst hj
        exact hilt
    · rw [List.nodup_append]
      refine ⟨hI.free_nodup, by simp, ?_⟩
      intro a ha hb
      simp at hb
      subst hb
      exact hinot ha
    · intro p hp hmem
      obtain ⟨hpm, hpk⟩ := mem_alErase.mp hp
      rcases List.mem_append.mp hmem with hmem | hmem
      · exact hI.not_both p hpm hmem
      · simp at hmem
        exact hpk (hI.slot_inj p hpm (k, i) hki hmem)
    · intro p hp q hq heq
      exact hI.slot_inj p (mem_alErase.mp hp).1 q (mem_alErase.mp hq).1 heq
    · intro i0 hi0
      rcases hI.cover i0 hi0 with ⟨q, hq, hqi⟩ | hfree
      · by_cases hqk : q.1 = k
        · have hqe : q = (k, i) := hfst q hq (k, i) hki hqk
          right
          rw [List.mem_append]
          right
          simp [← hqi, hqe]
        · exact Or.inl ⟨q, mem_alErase.mpr ⟨hq, hqk⟩, hqi⟩
      · exact Or.inr (List.mem_append.mpr (Or.inl hfree))

/-- The invariant holds along any operation sequence. -/
theorem inv_applyOps {α : Type} {s : ComponentStore α} (hI : Inv s)
    (ops : List (StoreOp α)) : Inv (applyOps s ops) := by
  induction ops generalizing s with
  | nil => exact hI
  | cons op rest ih =>
    simp only [applyOps, List.foldl_cons]
    cases op with
    | addOp k v => exact ih (inv_add hI k v)
    | removeOp k => exact ih (inv_remove hI k)

/-- Counting pairs by key equals counting the key in the key projection. -/
theorem length_filter_fst (m : List (Nat × Nat)) (e : Nat) :
    (m.filter (fun p => p.1 == e)).length = (m.map Prod.fst).count e := by
  induction m with
  | nil => simp
  | cons p rest ih =>
    obtain ⟨k1, v⟩ := p
    by_cases h : k1 = e <;>
      simp [List.filter_cons, List.count_cons, h, ih]

/-- The spec-level store invariant follows from the structural one. -/
theorem storeInvariant_of_inv {α : Type} {s : ComponentStore α} (hI : Inv s) :
    StoreInvariant s := by
  refine ⟨?_, hI.slot_inj, ?_⟩
  · intro e he
    rw [length_filter_fst]
    exact List.count_eq_one_of_mem hI.keys_nodup he
  · intro i hi
    have hmnd : s.index_map.Nodup := List.Nodup.of_map _ hI.keys_nodup
    rcases hI.cover i hi with ⟨p, hp, hpi⟩ | hfree
    · left
      constructor
      · have hfil : s.index_map.filter (fun q => q.2 == i) = [p] := by
          apply nodup_mem_all_eq (List.Nodup.filter _ hmnd)
          · rw [List.mem_filter]
            exact ⟨hp, by simp [hpi]⟩
          · intro y hy
            rw [List.mem_filter] at hy
            obtain ⟨hy1, hy2⟩ := hy
            have hy2i : y.2 = i := by simpa using hy2
            have hkey : y.1 = p.1 :=
              hI.slot_inj y hy1 p hp (by rw [hy2i, hpi])
            have hsnd : y.2 = p.2 := by rw [hy2i, hpi]
            cases y
            cases p
            simp_all
        rw [hfil]
        rfl
      · exact List.count_eq_zero.mpr (hpi ▸ hI.not_both p hp)
    · right
      constructor
      · have hfil : s.index_map.filter (fun q => q.2 == i) = [] := by
          rw [List.filter_eq_nil_iff]
          intro q hq hqi
          have hqi2 : q.2 = i := by simpa using hqi
          exact hI.not_both q hq (by rw [hqi2]; exact hfree)
        rw [hfil]
        rfl
      · exact List.count_eq_one_of_mem hI.free_nodup hfree

end InvariantLemmas

section StabilityLemmas

/-- `add` of a fresh-or-existing key leaves the key resolving to the returned
handle, whose slot holds the added record. -/
theorem add_fresh_result {α : Type} {s : ComponentStore α} (hI : Inv s)
    (k : Nat) (v : α) :
    alLookup (s.add k v).1.index_map k = some (s.add k v).2 ∧
    (s.add k v).1.components[(s.add k v).2]? = some v := by
  cases hlk : alLookup s.index_map k with
  | some i =>
    rw [add_eq_overwrite v hlk]
    have hilt : i < s.components.length := hI.map_lt _ (alLookup_eq_some_mem hlk)
    exact ⟨hlk, List.getElem?_set_self hilt⟩
  | none =>
    cases hfr : s.free_indices.getLast? with
    | some free =>
      rw [add_eq_reuse v hlk hfr]
      have hfree_mem : free ∈ s.free_indices := by
        rw [← getLast?_decomp hfr]
        simp
      have hfree_lt : free < s.components.length := hI.free_lt free hfree_mem
      constructor
      · rw [alLookup_append, hlk]
        simp [alLookup]
      · exact List.getElem?_set_self hfree_lt
    | none =>
      rw [add_eq_append v hlk hfr]
      constructor
      · rw [alLookup_append, hlk]
        simp [alLookup]
      · exact List.getElem?_concat_length _ _

/-- A live record untouched by an operation keeps its slot and value. -/
theorem stable_step {α : Type} {s : ComponentStore α} {e i : Nat} {v : α}
    (hI : Inv s) (hm : alLookup s.index_map e = some i)
    (hv : s.components[i]? = some v) (op : StoreOp α)
    (hop : StoreOp.touches e op = false) :
    alLookup (applyOp s op).index_map e = some i ∧
    (applyOp s op).components[i]? = some v := by
  have hei : (e, i) ∈ s.index_map := alLookup_eq_some_mem hm
  cases op with
  | addOp k w =>
    have hke : k ≠ e := by simpa [StoreOp.touches] using hop
    show alLookup (s.add k w).1.index_map e = some i ∧
      (s.add k w).1.components[i]? = some v
    cases hlk : alLookup s.index_map k with
    | some j =>
      rw [add_eq_overwrite w hlk]
      have hji : j ≠ i := by
        intro hj
        subst hj
        exact hke (hI.slot_inj (k, j) (alLookup_eq_some_mem hlk) (e, j) hei rfl)
      refine ⟨hm, ?_⟩
      rw [List.getElem?_set_ne hji]
      exact hv
    | none =>
      cases hfr : s.free_indices.getLast? with
      | some free =>
        rw [add_eq_reuse w hlk hfr]
        have hfree_mem : free ∈ s.free_indices := by
          rw [← getLast?_decomp hfr]
          simp
        have hfi : free ≠ i := fun h => hI.not_both (e, i) hei (h ▸ hfree_mem)
        constructor
        · rw [alLookup_append, hm]
        · rw [List.getElem?_set_ne hfi]
          exact hv
      | none =>
        rw [add_eq_append w hlk hfr]
        have hlt : i < s.components.length := hI.map_lt _ hei
        constructor
        · rw [alLookup_append, hm]
        · rw [List.getElem?_append_left hlt]
          exact hv
  | removeOp k =>
    have hke : k ≠ e := by simpa [StoreOp.touches] using hop
    show alLookup (s.remove k).index_map e = some i ∧
      (s.remove k).components[i]? = some v
    cases hlk : alLookup s.index_map k with
    | none =>
      rw [remove_eq_none hlk]
      exact ⟨hm, hv⟩
    | some j =>
      rw [remove_eq_some hlk]
      constructor
      · rw [alLookup_alErase_ne s.index_map k e (Ne.symm hke)]
        exact hm
      · exact hv

/-- A live record avoided by a whole operation sequence keeps its slot and
value across the sequence. -/
theorem stable_ops {α : Type} {s : ComponentStore α} {e i : Nat} {v : α}
    (hI : Inv s) (hm : alLookup s.index_map e = some i)
    (hv : s.components[i]? = some v) (ops : List (StoreOp α))
    (hops : avoids e ops = true) :
    alLookup (applyOps s ops).index_map e = some i ∧
    (applyOps s ops).components[i]? = some v := by
  induction ops generalizing s with
  | nil => exact ⟨hm, hv⟩
  | cons op rest ih =>
    simp only [avoids, List.all_cons, Bool.and_eq_true] at hops
    obtain ⟨hop1, hrest⟩ := hops
    have hop2 : StoreOp.touches e op = false := by simpa using hop1
    obtain ⟨hm2, hv2⟩ := stable_step hI hm hv op hop2
    have hI2 : Inv (applyOp s op) := by
      cases op with
      | addOp k w => exact inv_add hI k w
      | removeOp k => exact inv_remove hI k
    simp only [applyOps, List.foldl_cons]
    exact ih hI2 hm2 hv2 hrest

end StabilityLemmas

section ClaimC4

/-- C4: for every sequence of add/remove operations around it, a handle `h`
returned by `add(e, v)` keeps resolving — through `get(e)` and
`get_by_id(h)` alike — to the record `v`, as long as the surrounding
operations never add or remove entity `e`, across free-list reuse and
capacity growth. -/
theorem c4_handle_stability (α : Type) (capacity : Nat)
    (pre post : List (StoreOp α)) (e : Nat) (v : α)
    (hpost : avoids e post = true) :
    (applyOps ((applyOps (ComponentStore.new α capacity) pre).add e v).1 post).get e
        = some v ∧
    (applyOps ((applyOps (ComponentStore.new α capacity) pre).add e v).1 post).get_by_id
        ((applyOps (ComponentStore.new α capacity) pre).add e v).2 = some v := by
  have hI0 : Inv (applyOps (ComponentStore.new α capacity) pre) :=
    inv_applyOps (inv_new α capacity) pre
  obtain ⟨hm, hv⟩ := add_fresh_result hI0 e v
  have hI1 : Inv ((applyOps (ComponentStore.new α capacity) pre).add e v).1 :=
    inv_add hI0 e v
  obtain ⟨hm2, hv2⟩ := stable_ops hI1 hm hv post hpost
  refine ⟨?_, ?_⟩
  · unfold ComponentStore.get
    rw [hm2]
    simpa using hv2
  · exact hv2

/-- Witness for C4 on a capacity-1 store: entity 2 (record 20) survives six
surrounding operations including removals, slot reuse and growth. -/
theorem c4_handle_stability_witness :
    avoids 2 c4Post = true ∧
    ((applyOps ((applyOps (ComponentStore.new Nat 1) c4Pre).add 2 20).1 c4Post).get 2
        = some 20 ∧
      (applyOps ((applyOps (ComponentStore.new Nat 1) c4Pre).add 2 20).1 c4Post).get_by_id
        ((applyOps (ComponentStore.new Nat 1) c4Pre).add 2 20).2 = some 20) :=
  ⟨by decide, c4_handle_stability Nat 1 c4Pre c4Post 2 20 (by decide)⟩

end ClaimC4

section ClaimC5

/-- C5: after every finite sequence of add/remove operations on a store, the
index map assigns each live entity exactly one slot and is injective, and
every slot below the dense-array length is owned by exactly one live entity
or sits in the free list exactly once, never both. -/
theorem c5_free_list_partition (α : Type) (capacity : Nat)
    (ops : List (StoreOp α)) :
    StoreInvariant (applyOps (ComponentStore.new α capacity) ops) :=
  storeInvariant_of_inv (inv_applyOps (inv_new α capacity) ops)

end ClaimC5

section ClaimC6

/-- C6: on a Relation Store, `link(a, b)` then `link(a, b')` yields a state in
which `get_mapping(a) = some b'`, and every other index `i ≠ a` reads the same
value as before the second link. -/
theorem c6_relink_overwrites (s : RelationStore) (a b b1 i : Nat) (h : i ≠ a) :
    ((s.link a b).link a b1).get_mapping a = some b1 ∧
    ((s.link a b).link a b1).get_mapping i = (s.link a b).get_mapping i := by
  have ha : a < (s.link a b).mapping.length := link_length_ge s a b
  have hmap : ((s.link a b).link a b1).mapping = (s.link a b).mapping.set a b1 := by
    rw [link_mapping]
    rw [if_neg (by omega)]
  refine ⟨?_, ?_⟩
  · simp [RelationStore.get_mapping, hmap, List.getElem?_set, ha]
  · simp [RelationStore.get_mapping, hmap, List.getElem?_set, Ne.symm h]

/-- Witness for C6 at a concrete store: relinking index 1 from 2 to 5 gives
back 5, and index 0 is unchanged. -/
theorem c6_relink_overwrites_witness :
    (0 : Nat) ≠ 1 ∧
    (((RelationStore.new 4).link 1 2).link 1 5).get_mapping 1 = some 5 ∧
    (((RelationStore.new 4).link 1 2).link 1 5).get_mapping 0 =
      ((RelationStore.new 4).link 1 2).get_mapping 0 :=
  ⟨by decide, c6_relink_overwrites (RelationStore.new 4) 1 2 5 0 (by decide)⟩

end ClaimC6

section ClaimC7

set_option maxRecDepth 4000 in
/-- C7 (counterexample to the claim as stated): `grow` doubles the capacity
only once per `link`, so a single link whose index jumps far past the current
capacity leaves `capacity < mapping.len()`.  Concretely, a fresh store of
capacity 64 linked at index 200 ends with capacity 128 but a mapping of
length 201, so the per-element write at index 200 and the full re-upload both
exceed the `capacity * sizeof(u32)` device buffer. -/
theorem c7_capacity_counterexample :
    ((RelationStore.new 64).link 200 0).capacity <
      ((RelationStore.new 64).link 200 0).mapping.length := by decide

/-- C7 (amended): after `link(a, b)`, `capacity ≥ mapping.len()` does hold
provided the linked index is below twice the pre-link capacity — in
particular for every sequential linking pattern, where the index is at most
the current mapping length ≤ capacity.  A single doubling then suffices. -/
theorem c7_growth_capacity (s : RelationStore) (a b : Nat)
    (hinv : s.mapping.length ≤ s.capacity) (ha : a < 2 * s.capacity) :
    (s.link a b).mapping.length ≤ (s.link a b).capacity := by
  unfold RelationStore.link
  dsimp only
  split_ifs with h1 h2 h2 <;>
    simp_all [RelationStore.grow, List.length_set, List.length_append,
      List.length_replicate] <;>
    omega

/-- Witness for C7 (amended) at a concrete store: a fresh store of capacity 4
linked at index 5 (5 < 8) grows once to capacity 8 ≥ mapping length 6. -/
theorem c7_growth_capacity_witness :
    ((RelationStore.new 4).mapping.length ≤ (RelationStore.new 4).capacity) ∧
    (5 < 2 * (RelationStore.new 4).capacity) ∧
    ((RelationStore.new 4).link 5 9).mapping.length ≤
      ((RelationStore.new 4).link 5 9).capacity :=
  ⟨by decide, by decide, c7_growth_capacity (RelationStore.new 4) 5 9 (by decide) (by decide)⟩

end ClaimC7

section ClaimC10

/-- C10: immediately after `remove(e)` of a live entity `e` whose handle `h`
resolves to record `v`, `get(e)` returns none but `get_by_id(h)` still returns
`v`: removal pushes the slot on the free list without clearing the record. -/
theorem c10_remove_leaves_record (α : Type) (s : ComponentStore α) (e h : Nat) (v : α)
    (hidx : s.get_index e = some h) (hget : s.get e = some v) :
    (s.remove e).get e = none ∧ (s.remove e).get_by_id h = some v := by
  have hidx2 : alLookup s.index_map e = some h := hidx
  have hrem : s.remove e =
      { s with
          index_map := alErase s.index_map e
          free_indices := s.free_indices ++ [h] } := by
    unfold ComponentStore.remove
    rw [hidx2]
  have hget2 : s.components[h]? = some v := by
    unfold ComponentStore.get at hget
    rw [hidx2] at hget
    simpa using hget
  rw [hrem]
  refine ⟨?_, ?_⟩
  · unfold ComponentStore.get
    simp [alLookup_alErase_self]
  · unfold ComponentStore.get_by_id
    simpa using hget2

/-- Witness for C10: add entity 7 with record 42 to a fresh store (handle 0),
remove it, and the record is still readable through the stale handle. -/
theorem c10_remove_leaves_record_witness :
    (((ComponentStore.new Nat 1).add 7 42).1.get_index 7 = some 0) ∧
    (((ComponentStore.new Nat 1).add 7 42).1.get 7 = some 42) ∧
    ((((ComponentStore.new Nat 1).add 7 42).1.remove 7).get 7 = none ∧
      (((ComponentStore.new Nat 1).add 7 42).1.remove 7).get_by_id 0 = some 42) :=
  ⟨by decide, by decide,
    c10_remove_leaves_record Nat ((ComponentStore.new Nat 1).add 7 42).1 7 0 42
      (by decide) (by decide)⟩

end ClaimC10

section RunLoopLemmas

/-- Servicing one command emits exactly that command's camera effects. -/
theorem handle_command_cam (s : CoreState) (c : RenderCommand) :
    (handle_command s c).2.filterMap effCamValue = (camValue c).toList := by
  cases c <;> cases hp : s.pending_resize <;>
    simp [handle_command, hp, camValue, effCamValue]

/-- Servicing one command emits exactly that command's spawn effects. -/
theorem handle_command_spawn (s : CoreState) (c : RenderCommand) :
    (handle_command s c).2.filterMap effSpawnValue = (spawnValue c).toList := by
  cases c <;> cases hp : s.pending_resize <;>
    simp [handle_command, hp, spawnValue, effSpawnValue]

/-- Phase 1 of a drain cycle emits no camera effects: camera updates never
pass through the inbox. -/
theorem process_incoming_no_cam (q : List RenderCommand) :
    ∀ (i : Inbox) (s : CoreState),
      (process_incoming i s q).2.2.filterMap effCamValue = [] := by
  induction q with
  | nil =>
    intro i s
    rfl
  | cons c cs ih =>
    intro i s
    cases c <;>
      simp [process_incoming, Inbox.receive, handle_command, effCamValue,
        List.filterMap_append, ih]

/-- Phase 1 applies exactly the spawn commands of the burst, in enqueue
order. -/
theorem process_incoming_spawns (q : List RenderCommand) :
    ∀ (i : Inbox) (s : CoreState),
      (process_incoming i s q).2.2.filterMap effSpawnValue =
        q.filterMap spawnValue := by
  induction q with
  | nil =>
    intro i s
    rfl
  | cons c cs ih =>
    intro i s
    cases c <;>
      simp [process_incoming, Inbox.receive, handle_command, effSpawnValue,
        spawnValue, List.filterMap_append, List.filterMap_cons, ih]

/-- Phase 1 leaves the surface configuration and the pending resize of the
render context untouched: only coalesced commands touch them, and those
never pass through the inbox. -/
theorem process_incoming_core (q : List RenderCommand) :
    ∀ (i : Inbox) (s : CoreState),
      (process_incoming i s q).2.1.config = s.config ∧
      (process_incoming i s q).2.1.pending_resize = s.pending_resize := by
  induction q with
  | nil =>
    intro i s
    exact ⟨rfl, rfl⟩
  | cons c cs ih =>
    intro i s
    cases c <;>
      simp [process_incoming, Inbox.receive, handle_command, ih]

/-- After phase 1, the camera slot holds the last UpdateCamera of the burst
(or whatever it held before, if the burst has none). -/
theorem process_incoming_camera_slot (q : List RenderCommand) :
    ∀ (i : Inbox) (s : CoreState),
      (process_incoming i s q).1.camera =
        (match (q.filterMap camValue).getLast? with
          | some x => some (RenderCommand.updateCamera x)
          | none => i.camera) := by
  induction q with
  | nil =>
    intro i s
    rfl
  | cons c cs ih =>
    intro i s
    rcases hlast : (cs.filterMap camValue).getLast? with _ | y <;>
      cases c <;>
        simp [process_incoming, Inbox.receive, handle_command, camValue,
          List.filterMap_cons, List.getLast?_cons, hlast, ih]

/-- After phase 1, the resize slot holds the last Resize of the burst. -/
theorem process_incoming_resize_slot (q : List RenderCommand) :
    ∀ (i : Inbox) (s : CoreState),
      (process_incoming i s q).1.resize =
        (match (q.filterMap resizeValue).getLast? with
          | some x => some (RenderCommand.resize x)
          | none => i.resize) := by
  induction q with
  | nil =>
    intro i s
    rfl
  | cons c cs ih =>
    intro i s
    rcases hlast : (cs.filterMap resizeValue).getLast? with _ | y <;>
      cases c <;>
        simp [process_incoming, Inbox.receive, handle_command, resizeValue,
          List.filterMap_cons, List.getLast?_cons, hlast, ih]

/-- After phase 1, the frame slot holds the last RenderFrame of the burst. -/
theorem process_incoming_frame_slot (q : List RenderCommand) :
    ∀ (i : Inbox) (s : CoreState),
      (process_incoming i s q).1.frame =
        (match (q.filterMap frameValue).getLast? with
          | some x => some (RenderCommand.renderFrame x)
          | none => i.frame) := by
  induction q with
  | nil =>
    intro i s
    rfl
  | cons c cs ih =>
    intro i s
    rcases hlast : (cs.filterMap frameValue).getLast? with _ | y <;>
      cases c <;>
        simp [process_incoming, Inbox.receive, handle_command, frameValue,
          List.filterMap_cons, List.getLast?_cons, hlast, ih]

/-- Flushing a command list emits exactly its camera payloads in order. -/
theorem handle_all_cam (cs : List RenderCommand) :
    ∀ (s : CoreState),
      (handle_all s cs).2.filterMap effCamValue = cs.filterMap camValue := by
  induction cs with
  | nil =>
    intro s
    rfl
  | cons c cs2 ih =>
    intro s
    have h1 := handle_command_cam s c
    rcases hc : camValue c with _ | x <;>
      simp [handle_all, List.filterMap_append, List.filterMap_cons, h1, hc, ih]

/-- Flushing a command list emits exactly its spawn payloads in order. -/
theorem handle_all_spawn (cs : List RenderCommand) :
    ∀ (s : CoreState),
      (handle_all s cs).2.filterMap effSpawnValue = cs.filterMap spawnValue := by
  induction cs with
  | nil =>
    intro s
    rfl
  | cons c cs2 ih =>
    intro s
    have h1 := handle_command_spawn s c
    rcases hc : spawnValue c with _ | x <;>
      simp [handle_all, List.filterMap_append, List.filterMap_cons, h1, hc, ih]

end RunLoopLemmas

section ClaimC1

/-- C1: if a drain cycle services a burst containing at least one
UpdateCamera (last payload `c`), exactly one camera update is applied during
the cycle, and it is the last one enqueued; the earlier ones are discarded. -/
theorem c1_camera_coalescing (s : CoreState) (batch : List RenderCommand)
    (c : Nat) (h : (batch.filterMap camValue).getLast? = some c) :
    (drain_cycle s batch).2.filterMap effCamValue = [c] := by
  unfold drain_cycle
  dsimp only
  rw [List.filterMap_append, process_incoming_no_cam batch Inbox.empty s,
    handle_all_cam]
  have hcam := process_incoming_camera_slot batch Inbox.empty s
  rw [h] at hcam
  have hres := process_incoming_resize_slot batch Inbox.empty s
  have hfra := process_incoming_frame_slot batch Inbox.empty s
  rcases hr : (batch.filterMap resizeValue).getLast? with _ | r <;>
    rcases hf : (batch.filterMap frameValue).getLast? with _ | f <;>
      rw [hr] at hres <;> rw [hf] at hfra <;>
        simp only [Inbox.empty] at hcam hres hfra <;>
          simp [Inbox.take_ready, Inbox.empty, hcam, hres, hfra, camValue]

/-- Witness for C1: a burst of three camera updates (payloads 1, 2, 3)
around a spawn applies exactly one camera update, payload 3. -/
theorem c1_camera_coalescing_witness :
    (c1Batch.filterMap camValue).getLast? = some 3 ∧
    (drain_cycle initCore c1Batch).2.filterMap effCamValue = [3] :=
  ⟨by decide, c1_camera_coalescing initCore c1Batch 3 (by decide)⟩

end ClaimC1

section ClaimC2

/-- C2: for a burst of spawn commands interleaved with camera updates, every
spawn command is applied exactly once, in exactly its enqueue order,
whatever camera updates coalesce around them. -/
theorem c2_spawn_ordering (s : CoreState) (batch : List RenderCommand)
    (h : spawnOrCamera batch = true) :
    (drain_cycle s batch).2.filterMap effSpawnValue =
      batch.filterMap spawnValue := by
  unfold drain_cycle
  dsimp only
  rw [List.filterMap_append, process_incoming_spawns batch Inbox.empty s,
    handle_all_spawn]
  have hcam := process_incoming_camera_slot batch Inbox.empty s
  have hres := process_incoming_resize_slot batch Inbox.empty s
  have hfra := process_incoming_frame_slot batch Inbox.empty s
  rcases hc : (batch.filterMap camValue).getLast? with _ | cv <;>
    rcases hr : (batch.filterMap resizeValue).getLast? with _ | r <;>
      rcases hf : (batch.filterMap frameValue).getLast? with _ | f <;>
        rw [hc] at hcam <;> rw [hr] at hres <;> rw [hf] at hfra <;>
          simp only [Inbox.empty] at hcam hres hfra <;>
            simp [Inbox.take_ready, Inbox.empty, hcam, hres, hfra, spawnValue]

/-- Witness for C2: three spawns interleaved with two camera updates are all
applied, in enqueue order. -/
theorem c2_spawn_ordering_witness :
    spawnOrCamera c2Batch = true ∧
    (drain_cycle initCore c2Batch).2.filterMap effSpawnValue =
      c2Batch.filterMap spawnValue :=
  ⟨by decide, c2_spawn_ordering initCore c2Batch (by decide)⟩

end ClaimC2

section ClaimC3

/-- C3 (counterexample to the claim as stated): a Resize to configuration 7
and a RenderFrame serviced in the same drain cycle, starting from surface
configuration 3.  The Resize is dispatched first, but its handler only
records the configuration as pending; the frame is rendered against the
stale configuration 3, and the resize takes effect on the render context
only after the frame render — not before, as the claim states. -/
theorem c3_stale_config_counterexample :
    (drain_cycle c3Core c3Batch).2 =
      [Effect.resizeCompleteSent 7, Effect.frameRendered 0 3,
        Effect.frameCompleteSent, Effect.resizeApplied 7] ∧
    Effect.frameRendered 0 7 ∉ (drain_cycle c3Core c3Batch).2 := by
  refine ⟨by decide, by decide⟩

/-- C3 (amended): the coalesced commands are dispatched in the fixed
priority order resize, camera, frame, but the Resize handler only records
the new surface configuration as pending (acknowledging with
ResizeComplete); the frame serviced in the same drain cycle is rendered
against the pre-cycle surface configuration, and the pending configuration
is applied to the render context immediately after that frame render. -/
theorem c3_resize_applied_after_frame (s : CoreState)
    (batch : List RenderCommand) (r f : Nat)
    (hr : (batch.filterMap resizeValue).getLast? = some r)
    (hf : (batch.filterMap frameValue).getLast? = some f) :
    (drain_cycle s batch).2 =
      (process_incoming Inbox.empty s batch).2.2 ++
        [Effect.resizeCompleteSent r] ++
        ((batch.filterMap camValue).getLast?.toList.map Effect.cameraApplied) ++
        [Effect.frameRendered f s.config, Effect.frameCompleteSent,
          Effect.resizeApplied r] ∧
    (drain_cycle s batch).1.config = r ∧
    (drain_cycle s batch).1.pending_resize = none := by
  obtain ⟨hcfg, hpend⟩ := process_incoming_core batch Inbox.empty s
  have hcam := process_incoming_camera_slot batch Inbox.empty s
  have hres := process_incoming_resize_slot batch Inbox.empty s
  have hfra := process_incoming_frame_slot batch Inbox.empty s
  rw [hr] at hres
  rw [hf] at hfra
  unfold drain_cycle
  dsimp only
  rcases hc : (batch.filterMap camValue).getLast? with _ | cv <;>
    rw [hc] at hcam <;>
      simp only [Inbox.empty] at hcam hres hfra hcfg hpend <;>
        simp [Inbox.take_ready, Inbox.empty, hcam, hres, hfra, handle_all,
          handle_command, hcfg, hpend, Option.toList]

/-- Witness for C3 (amended), at the concrete C3 scenario: the cycle's
effects are exactly ResizeComplete(7), the frame rendered against the
pre-cycle configuration 3, FrameComplete, then the resize application; the
final configuration is 7 with no pending resize. -/
theorem c3_resize_applied_after_frame_witness :
    (c3Batch.filterMap resizeValue).getLast? = some 7 ∧
    (c3Batch.filterMap frameValue).getLast? = some 0 ∧
    ((drain_cycle c3Core c3Batch).2 =
      (process_incoming Inbox.empty c3Core c3Batch).2.2 ++
        [Effect.resizeCompleteSent 7] ++
        ((c3Batch.filterMap camValue).getLast?.toList.map Effect.cameraApplied) ++
        [Effect.frameRendered 0 c3Core.config, Effect.frameCompleteSent,
          Effect.resizeApplied 7] ∧
      (drain_cycle c3Core c3Batch).1.config = 7 ∧
      (drain_cycle c3Core c3Batch).1.pending_resize = none) :=
  ⟨by decide, by decide,
    c3_resize_applied_after_frame c3Core c3Batch 7 0 (by decide) (by decide)⟩

end ClaimC3

section ClaimC8

/-- C8 (code behaviour at the failing input): with every sender dropped and
the queue drained, the render loop discards the failed `recv` (its
`if let Ok` silently drops the RecvError) and keeps iterating: for any
number of iterations it neither exits nor sends Stopped, contradicting the
claim that channel disconnection is treated as the Stop signal. -/
theorem c8_disconnect_spins_forever (fuel : Nat) :
    run_loop fuel disconnectedChannel initCore [] =
      RunResult.outOfFuel initCore [] := by
  induction fuel with
  | zero => rfl
  | succ n ih =>
    simpa [run_loop, disconnectedChannel, initCore] using ih

end ClaimC8

section ClaimC9

/-- Converse direction: a key carried by no pair is not found. -/
theorem alLookup_eq_none_of_keys {m : List (Nat × Nat)} {k : Nat}
    (h : ∀ p ∈ m, p.1 ≠ k) : alLookup m k = none := by
  induction m with
  | nil => rfl
  | cons q rest ih =>
    obtain ⟨k1, v⟩ := q
    have hk1 : k1 ≠ k := h (k1, v) (by simp)
    simp only [alLookup]
    rw [if_neg (by simpa using hk1)]
    exact ih (fun p hp => h p (List.mem_cons_of_mem _ hp))

/-- The sequential-spawn index map, one more spawn. -/
theorem rangeKeyMap_succ (k : Nat) :
    rangeKeyMap (k + 1) = rangeKeyMap k ++ [(k + 1, k)] := by
  simp [rangeKeyMap, List.range_succ]

/-- Entity k+1 is fresh for the index map of the first k spawns. -/
theorem alLookup_rangeKeyMap_top (k : Nat) :
    alLookup (rangeKeyMap k) (k + 1) = none := by
  apply alLookup_eq_none_of_keys
  intro p hp
  simp only [rangeKeyMap, List.mem_map, List.mem_range] at hp
  obtain ⟨j, hj, hpj⟩ := hp
  rw [← hpj]
  simp only []
  omega

/-- A `filterMap` that always succeeds is a `map`. -/
theorem filterMap_eq_map_of_some {α β : Type} (f : α → Option β) (g : α → β)
    (l : List α) (h : ∀ a ∈ l, f a = some (g a)) :
    l.filterMap f = l.map g := by
  induction l with
  | nil => rfl
  | cons x xs ih =>
    rw [List.filterMap_cons, h x (by simp), List.map_cons]
    rw [ih (fun a ha => h a (List.mem_cons_of_mem _ ha))]

/-- `HostComponentStore::add` of a fresh key with an empty free list. -/
theorem host_add_eq_append {α : Type} {s : HostComponentStore α} {k : Nat} (v : α)
    (h : alLookup s.index_map k = none) (hf : s.free_indices.getLast? = none) :
    s.add k v =
      ({ s with
          components := s.components ++ [v]
          index_map := s.index_map ++ [(k, s.components.length)] },
        s.components.length) := by
  unfold HostComponentStore.add
  rw [h, hf]

/-- `link` of the next sequential slot on a relation store whose mapping is
`range k`: the mapping becomes `range k ++ [b]`, and the store grows exactly
when the new length k+1 reaches the capacity. -/
theorem link_step (k c b2 : Nat) (d : Bool) :
    RelationStore.link ⟨List.range k, c, d⟩ k b2 =
      ⟨List.range k ++ [b2], if c ≤ k + 1 then 2 * c else c,
        if c ≤ k + 1 then true else d⟩ := by
  unfold RelationStore.link RelationStore.grow
  dsimp only
  simp only [List.length_range, le_refl, ite_true, Nat.add_sub_cancel_left]
  have hm : (List.range k ++ List.replicate 1 0).set k b2 = List.range k ++ [b2] := by
    rw [List.set_append_right _ _ (by simp)]
    simp
  rw [hm]
  have hl : (List.range k ++ [b2]).length = k + 1 := by simp
  rw [hl]
  split <;> rfl

/-- Folding `groupInsert` over a single-key list only extends the single
group. -/
theorem foldl_groupInsert_const (l : List (BatchKey × Instance)) :
    ∀ (key0 : BatchKey) (is : List Instance), (∀ x ∈ l, x.1 = key0) →
      l.foldl (fun acc p => groupInsert acc p.1 p.2) [(key0, is)] =
        [(key0, is ++ l.map Prod.snd)] := by
  induction l with
  | nil =>
    intro key0 is h
    simp
  | cons x xs ih =>
    intro key0 is h
    have hx : x.1 = key0 := h x (by simp)
    have hstep : groupInsert [(key0, is)] x.1 x.2 = [(key0, is ++ [x.2])] := by
      rw [hx]
      simp [groupInsert]
    rw [List.foldl_cons, hstep,
      ih key0 (is ++ [x.2]) (fun a ha => h a (List.mem_cons_of_mem _ ha))]
    simp

/-- Grouping a nonempty single-key list yields the single full group. -/
theorem groupByKey_const (key0 : BatchKey) (x : BatchKey × Instance)
    (xs : List (BatchKey × Instance)) (h : ∀ y ∈ x :: xs, y.1 = key0) :
    groupByKey (x :: xs) = [(key0, (x :: xs).map Prod.snd)] := by
  have hx : x.1 = key0 := h x (by simp)
  unfold groupByKey
  rw [List.foldl_cons]
  have hfirst : groupInsert [] x.1 x.2 = [(key0, [x.2])] := by
    rw [hx]
    rfl
  rw [hfirst,
    foldl_groupInsert_const xs key0 [x.2] (fun a ha => h a (List.mem_cons_of_mem _ ha))]
  simp

/-- The node loop on the closed-form scene resolves every one of the n live
nodes to the single (mesh, handle 1) key. -/
theorem nodeInstances_closed (n : Nat) (p : InstancePool) (b : List RenderBatch) :
    (preSceneAt n p b).nodeInstances =
      (List.range n).map
        (fun j => ((⟨.mesh, 1⟩ : BatchKey), (⟨j, j⟩ : Instance))) := by
  unfold SceneGraph.nodeInstances
  have hiter : (preSceneAt n p b).nodes.iter_with_index =
      (List.range n).map (fun j => (j + 1, j, (1 : Nat))) := by
    unfold HostComponentStore.iter_with_index
    rw [show (preSceneAt n p b).nodes.index_map =
      (List.range n).map (fun j => (j + 1, j)) from rfl]
    rw [List.filterMap_map]
    apply filterMap_eq_map_of_some
    intro j hj
    have hj2 : j < n := List.mem_range.mp hj
    show ((preSceneAt n p b).nodes.components[j]?).map _ = _
    rw [show (preSceneAt n p b).nodes.components = List.replicate n 1 from rfl]
    rw [List.getElem?_replicate, if_pos hj2]
    rfl
  rw [hiter, List.filterMap_map]
  apply filterMap_eq_map_of_some
  intro j hj
  have hj2 : j < n := List.mem_range.mp hj
  have h1 : (preSceneAt n p b).node_transform_index.get_mapping j = some j :=
    List.getElem?_range hj2
  have h2 : (preSceneAt n p b).node_normal_index.get_mapping j = some j :=
    List.getElem?_range hj2
  show (match (preSceneAt n p b).node_transform_index.get_mapping j,
      (preSceneAt n p b).node_normal_index.get_mapping j with
    | some ti, some ni =>
      match (preSceneAt n p b).renderables.get 1 with
      | some rk => some ((⟨rk.pipeline, 1⟩ : BatchKey), (⟨ti, ni⟩ : Instance))
      | none => none
    | _, _ => none) = _
  rw [h1, h2]
  rfl

/-- The debug-light loop on the closed-form scene is empty (no lights). -/
theorem lightInstances_closed (n : Nat) (p : InstancePool) (b : List RenderBatch) :
    (preSceneAt n p b).lightInstances = [] := rfl

/-- `build_render_batches` on the closed-form scene with n ≥ 1 live nodes:
one upload of n instances, one mesh batch, nothing else changed. -/
theorem build_closed (n : Nat) (hn : 0 < n) (p : InstancePool)
    (b : List RenderBatch) :
    SceneGraph.build_render_batches (preSceneAt n p b) =
      preSceneAt n (p.upload n).1 [⟨⟨.mesh, 1⟩, (p.upload n).2, n⟩] := by
  obtain ⟨m, rfl⟩ : ∃ m, n = m + 1 := ⟨n - 1, by omega⟩
  unfold SceneGraph.build_render_batches
  rw [nodeInstances_closed, lightInstances_closed, List.append_nil]
  rw [show List.range (m + 1) = 0 :: (List.range m).map Nat.succ from
    List.range_succ_eq_map m]
  rw [List.map_cons]
  rw [groupByKey_const ⟨.mesh, 1⟩ _ _ (by
    intro y hy
    rcases List.mem_cons.mp hy with h1 | hy2
    · rw [h1]
    · obtain ⟨j, hj, hyj⟩ := List.mem_map.mp hy2
      rw [← hyj])]
  unfold uploadGroups
  dsimp only
  rw [List.foldl_cons, List.foldl_nil]
  dsimp only
  simp only [List.length_map, List.length_cons, List.length_range]
  rfl

/-- One spawn step in closed form: `add_node` of the fresh entity k+1 first
performs the three store adds and two relation links (turning the k-spawn
closed form into the (k+1)-spawn closed form, with the capacity-64 stores
doubling exactly when k = 64 and the relation stores exactly when k = 63),
then rebuilds the batches. -/
theorem add_node_closed (k : Nat) (hk : k < 100) (p : InstancePool)
    (b : List RenderBatch) :
    SceneGraph.add_node (preSceneAt k p b) (k + 1) 1 =
      SceneGraph.build_render_batches (preSceneAt (k + 1) p b) := by
  unfold SceneGraph.add_node
  dsimp only
  rw [add_eq_append () (alLookup_rangeKeyMap_top k)
    (show (preSceneAt k p b).transforms.free_indices.getLast? = none from rfl)]
  rw [host_add_eq_append 1 (alLookup_rangeKeyMap_top k)
    (show (preSceneAt k p b).nodes.free_indices.getLast? = none from rfl)]
  dsimp only
  rw [show ((preSceneAt k p b).transforms.components.length) = k from by
    simp [preSceneAt]]
  rw [show ((preSceneAt k p b).nodes.components.length) = k from by
    simp [preSceneAt]]
  rw [show (preSceneAt k p b).node_transform_index =
    (⟨List.range k, if k ≤ 63 then 64 else 128, decide (64 ≤ k)⟩ : RelationStore)
    from rfl]
  rw [link_step]
  rw [add_eq_append () (alLookup_rangeKeyMap_top k)
    (show (preSceneAt k p b).normals.free_indices.getLast? = none from rfl)]
  dsimp only
  rw [show ((preSceneAt k p b).normals.components.length) = k from by
    simp [preSceneAt]]
  rw [show (preSceneAt k p b).node_normal_index =
    (⟨List.range k, if k ≤ 63 then 64 else 128, decide (64 ≤ k)⟩ : RelationStore)
    from rfl]
  rw [link_step]
  refine congrArg SceneGraph.build_render_batches ?_
  rcases Nat.lt_or_ge k 63 with h63 | h63
  · -- k ≤ 62: no store grows
    simp [preSceneAt, SceneGraph.mk.injEq, rangeKeyMap_succ, List.range_succ,
      List.replicate_succ',
      show k ≤ 64 from by omega, show ¬ 64 ≤ k from by omega,
      show k + 1 ≤ 64 from by omega, show ¬ 65 ≤ k from by omega,
      show ¬ 65 ≤ k + 1 from by omega, show k ≤ 63 from by omega,
      show ¬ 64 ≤ k + 1 from by omega, show k + 1 ≤ 63 from by omega]
  · rcases Nat.lt_or_ge k 64 with h64 | h64
    · -- k = 63: the relation stores grow, the component stores do not
      have hek : k = 63 := by omega
      subst hek
      simp [preSceneAt, SceneGraph.mk.injEq, rangeKeyMap_succ, List.range_succ,
        List.replicate_succ']
    · rcases Nat.lt_or_ge k 65 with h65 | h65
      · -- k = 64: the component stores grow, the relation stores do not
        have hek : k = 64 := by omega
        subst hek
        simp [preSceneAt, SceneGraph.mk.injEq, rangeKeyMap_succ, List.range_succ,
          List.replicate_succ']
      · -- 65 ≤ k < 100: everything already doubled, nothing grows again
        simp [preSceneAt, SceneGraph.mk.injEq, rangeKeyMap_succ, List.range_succ,
          List.replicate_succ',
          show ¬ k ≤ 64 from by omega, show ¬ k + 1 ≤ 64 from by omega,
          show ¬ 128 ≤ k from by omega, show 65 ≤ k from by omega,
          show 65 ≤ k + 1 from by omega, show ¬ k ≤ 63 from by omega,
          show ¬ k + 1 ≤ 63 from by omega, show ¬ 128 ≤ k + 1 from by omega,
          show 64 ≤ k from by omega, show 64 ≤ k + 1 from by omega]

/-- The spawn phase in closed form, by induction on the number of spawns. -/
theorem spawn_closed : ∀ k, k ≤ 100 →
    spawnMany (SceneGraph.init.add_renderable 1 .mesh) 1 (entityList k) =
      preScene k := by
  intro k
  induction k with
  | zero =>
    intro _
    rfl
  | succ k ih =>
    intro hk
    have hlist : entityList (k + 1) = entityList k ++ [k + 1] := by
      simp [entityList, List.range_succ]
    rw [show spawnMany (SceneGraph.init.add_renderable 1 .mesh) 1 (entityList (k + 1))
        = SceneGraph.add_node
            (spawnMany (SceneGraph.init.add_renderable 1 .mesh) 1 (entityList k))
            (k + 1) 1 from by
      rw [hlist]
      simp [spawnMany, List.foldl_append]]
    rw [ih (by omega)]
    rw [show preScene k = preSceneAt k (poolAt k).1
      (if k = 0 then [] else [⟨⟨.mesh, 1⟩, (poolAt k).2, k⟩]) from rfl]
    rw [add_node_closed k (by omega)]
    rw [build_closed (k + 1) (by omega)]
    rfl

set_option maxRecDepth 20000 in
set_option maxHeartbeats 2000000 in
/-- The two concrete scenario facts the claim needs, transported through the
closed form: batch counts 100 and 50, and the cursor values 1045 (after the
spawn phase, two pool wraps included) and 1095 (after the second rebuild). -/
theorem c9_eval :
    c9Spawned.render_batches.map RenderBatch.instance_count = [100] ∧
    c9Removed.render_batches.map RenderBatch.instance_count = [50] ∧
    c9Spawned.instance_pool.cursor = 1045 ∧
    c9Removed.instance_pool.cursor = 1095 := by
  have hsp : c9Spawned = preScene 100 := spawn_closed 100 (by omega)
  have hrm : c9Removed =
      (removeNodes (preScene 100) (entityList 50)).build_render_batches :=
    congrArg (fun g => (removeNodes g (entityList 50)).build_render_batches) hsp
  refine ⟨?_, ?_, ?_, ?_⟩
  · rw [congrArg (fun g => g.render_batches.map RenderBatch.instance_count) hsp]
    decide
  · rw [congrArg (fun g => g.render_batches.map RenderBatch.instance_count) hrm]
    decide
  · rw [congrArg (fun g => g.instance_pool.cursor) hsp]
    decide
  · rw [congrArg (fun g => g.instance_pool.cursor) hrm]
    decide

/-- C9 (counterexample to the claim as stated): the batch counts are as
claimed, but after the second rebuild the instance pool cursor is 1095 — the
previous cursor 1045 advanced by the 50 uploaded records — not 50: no rebuild
ever resets the cursor (`InstancePool::reset` is never called). -/
theorem c9_cursor_counterexample :
    ¬ (c9Spawned.render_batches.map RenderBatch.instance_count = [100] ∧
      c9Removed.render_batches.map RenderBatch.instance_count = [50] ∧
      c9Removed.instance_pool.cursor = 50) := fun hcl =>
  absurd (c9_eval.2.2.2.symm.trans hcl.2.2) (by decide)

/-- C9 (amended): spawning 100 mesh nodes on one renderable handle and
rebuilding yields exactly one Render Batch with instance count 100; removing
50 of them and rebuilding yields exactly one batch with instance count 50,
and the second rebuild advances the instance pool cursor by exactly those 50
currently-live records (1045 to 1095), rather than resetting it to 50. -/
theorem c9_batch_counts :
    c9Spawned.render_batches.map RenderBatch.instance_count = [100] ∧
    c9Removed.render_batches.map RenderBatch.instance_count = [50] ∧
    c9Spawned.instance_pool.cursor = 1045 ∧
    c9Removed.instance_pool.cursor = c9Spawned.instance_pool.cursor + 50 :=
  ⟨c9_eval.1, c9_eval.2.1, c9_eval.2.2.1,
    c9_eval.2.2.2.trans ((rfl : (1095 : Nat) = 1045 + 50).trans
      (congrArg (fun x => x + 50) c9_eval.2.2.1.symm))⟩

end ClaimC9

end WgpuSpec
